import Mathlib

/-!
# Verification of the QOIshit encoder (`src/encode.py`)

This file gives a shallow embedding of the pixel-encoding core of
`src/encode.py` (the `encode` function and its helper `index_hash`) and
proves properties of it.

The embedding models the encoder after the image has been loaded: the
inputs are the image width, height and the row-major pixel list that the
Python code obtains from the imaging library, and the byte sink is
modelled as the returned list of byte values.  File input and output,
progress printing and the command-line driver are outside the model.

One point of Python semantics is modelled explicitly: the color index is
created as `index = [[0,0,0]] * 64`, a list whose 64 slots all start as
the *list* `[0,0,0]`, while the pixels compared against the slots are
*tuples* from `im.getdata()`.  In Python a tuple never compares equal to
a list, so the comparison `rgb == index[index_pos]` is `False` whenever
the slot still holds its initial value, even for the pixel `(0,0,0)`.
Slots are overwritten with pixel tuples by `index[index_pos] = rgb`, and
tuple-against-tuple comparison is ordinary structural equality.  The
type `IndexSlot` below records whether a slot still holds the initial
list or a stored pixel tuple, and `pyEqSlot` is the translation of the
Python `==` test between a pixel tuple and a slot.
-/

/-- An RGB pixel: the `(r, g, b)` tuple from `im.getdata()`, each channel
an integer 0-255.  (Channel range is not enforced by the Python code.) -/
structure Pixel where
  r : Nat
  g : Nat
  b : Nat
deriving DecidableEq

/-- One slot of the color index `index = [[0,0,0]] * 64`: either the
initial list `[0,0,0]` or a pixel tuple stored by `index[index_pos] = rgb`. -/
inductive IndexSlot where
  | initList : IndexSlot
  | stored : Pixel → IndexSlot
deriving DecidableEq

/-- The Python comparison `rgb == index[index_pos]`: a tuple never equals
a list, so the test is `false` against the initial slot value `[0,0,0]`;
against a stored tuple it is structural equality. -/
def pyEqSlot (rgb : Pixel) (slot : IndexSlot) : Bool :=
  match slot with
  | IndexSlot.initList => false
  | IndexSlot.stored p => decide (rgb = p)

/-- `index_hash` from `src/encode.py`:
`(rgb[0]*3 + rgb[1]*5 + rgb[2]*7 + 255*11) % 64`. -/
def index_hash (rgb : Pixel) : Nat :=
  (rgb.r * 3 + rgb.g * 5 + rgb.b * 7 + 255 * 11) % 64

/-- The mutable state of the encoding loop in `encode`:
the color index `index`, the previous pixel `last`, and the run-length
repetition counter `run_counter`. -/
structure EncState where
  index : List IndexSlot
  last : Pixel
  run_counter : Nat
deriving DecidableEq

/-- The state at the top of the loop: `index = [[0,0,0]] * 64`,
`last = [0, 0, 0]`, `run_counter = 0`. -/
def initState : EncState :=
  { index := List.replicate 64 IndexSlot.initList
    last := Pixel.mk 0 0 0
    run_counter := 0 }

/-- The bytes of the run-flush block (lines 90-93 of the source): one
QOI_OP_RUN byte `192 | (run_counter - 1)` when a run is open, nothing
otherwise. -/
def runFlush (s : EncState) : List Nat :=
  if s.run_counter > 0 then [192 ||| (s.run_counter - 1)] else []

/-- The state after the run-flush block: `run_counter` reset to 0 when a
run was open. -/
def flushState (s : EncState) : EncState :=
  if s.run_counter > 0 then { s with run_counter := 0 } else s

/-- One iteration of the `for rgb in pixVals` loop of `encode`: returns
the bytes written to the file during the iteration together with the
state at the start of the next iteration.  The branches are, in source
order: QOI_OP_RUN continuation, run flush, QOI_OP_INDEX hit or store,
QOI_OP_DIFF, and the QOI_OP_RGB literal fallback. -/
def encodeStep (s : EncState) (rgb : Pixel) : List Nat × EncState :=
  let index_pos := index_hash rgb
  if s.last.r = rgb.r ∧ s.last.g = rgb.g ∧ s.last.b = rgb.b ∧ s.run_counter < 62 then
    ([], { s with run_counter := s.run_counter + 1 })
  else
    let flush : List Nat := runFlush s
    let s1 : EncState := flushState s
    if pyEqSlot rgb (s1.index.getD index_pos IndexSlot.initList) = false then
      let s2 : EncState := { s1 with index := s1.index.set index_pos (IndexSlot.stored rgb) }
      let dr : Int := (rgb.r : Int) - (s2.last.r : Int)
      let dg : Int := (rgb.g : Int) - (s2.last.g : Int)
      let db : Int := (rgb.b : Int) - (s2.last.b : Int)
      if dr < 2 ∧ dr > -3 ∧ dg < 2 ∧ dg > -3 ∧ db < 2 ∧ db > -3 then
        (flush ++ [64 ||| ((dr + 2).toNat <<< 4) ||| ((dg + 2).toNat <<< 2) ||| (db + 2).toNat],
         { s2 with last := rgb })
      else
        (flush ++ [254, rgb.r, rgb.g, rgb.b], { s2 with last := rgb })
    else
      (flush ++ [index_pos], { s1 with last := rgb })

/-- The whole `for rgb in pixVals` loop from a given state: the bytes
written during the loop and the state after the last pixel. -/
def encodeLoop : EncState → List Pixel → List Nat × EncState
  | s, [] => ([], s)
  | s, p :: ps =>
    let r1 := encodeStep s p
    let r2 := encodeLoop r1.2 ps
    (r1.1 ++ r2.1, r2.2)

/-- The bytes the loop writes between the header and the trailer, starting
from the initial state.  Note the loop body is the only place run opcodes
are written: a run still open when the pixel list ends is never flushed. -/
def encodeBody (pixVals : List Pixel) : List Nat :=
  (encodeLoop initState pixVals).1

/-- Python `n.to_bytes(4, byteorder='big', signed=False)`: the four
big-endian base-256 digits of `n`, or an `OverflowError` when `n` does
not fit in four bytes. -/
def to_bytes4 (n : Nat) : Except String (List Nat) :=
  if n < 2 ^ 32 then
    Except.ok [n / 2 ^ 24 % 256, n / 2 ^ 16 % 256, n / 2 ^ 8 % 256, n % 256]
  else
    Except.error "OverflowError: int too big to convert"

/-- `magic = b"qoif"`, the ASCII bytes of `qoif`. -/
def magic : List Nat := [113, 111, 105, 102]

/-- The 8-byte end-of-stream marker
`bytearray([0x00]*7 + [0x01])` written after the loop. -/
def trailerBytes : List Nat := [0, 0, 0, 0, 0, 0, 0, 1]

/-- The encoding pass of `encode` from `src/encode.py`, after the image
has been loaded: build `bwidth` and `bheight` with `to_bytes` (an
oversized dimension raises `OverflowError` here, before any byte reaches
the sink), then write the header `magic`, `bwidth`, `bheight`,
`channels = 3`, `colorspace = 0`, then the loop output, then the 8-byte
trailer.  The returned list is the byte stream the Python code writes to
the output file. -/
def encode (width height : Nat) (pixVals : List Pixel) : Except String (List Nat) :=
  match to_bytes4 width with
  | Except.error e => Except.error e
  | Except.ok bwidth =>
    match to_bytes4 height with
    | Except.error e => Except.error e
    | Except.ok bheight =>
      Except.ok (magic ++ bwidth ++ bheight ++ [3] ++ [0] ++ encodeBody pixVals ++ trailerBytes)

/-- The pixel most recently consumed by the loop over `ps`, or the
initial `last = [0, 0, 0]` when no pixel has been consumed yet. -/
def lastPixel (ps : List Pixel) : Pixel :=
  (ps.reverse.head?).getD (Pixel.mk 0 0 0)

/-- The most recently consumed pixel among `ps` whose `index_hash` is
`h`, or the zero pixel when no consumed pixel hashes to `h`. -/
def lastColorWithHash (h : Nat) (ps : List Pixel) : Pixel :=
  (ps.reverse.find? (fun p => index_hash p == h)).getD (Pixel.mk 0 0 0)

/-- The color a slot holds, reading the initial list `[0, 0, 0]` as the
zero pixel. -/
def slotColor : IndexSlot → Pixel
  | IndexSlot.initList => Pixel.mk 0 0 0
  | IndexSlot.stored p => p

/-- The color-index invariant: the table has 64 slots, `last` is the most
recently consumed pixel, and each slot holds (as a color) the most
recently consumed pixel hashing to it, the zero pixel if none. -/
def tableInv (s : EncState) (ps : List Pixel) : Prop :=
  s.index.length = 64 ∧ s.last = lastPixel ps ∧
  ∀ h : Nat, h < 64 → slotColor (s.index.getD h IndexSlot.initList) = lastColorWithHash h ps

/-! ## General helper lemmas -/

theorem getD_set_self {α : Type} :
    ∀ (l : List α) (i : Nat) (a d : α), i < l.length → (l.set i a).getD i d = a
  | [], i, _, _, h => absurd h (Nat.not_lt_zero i)
  | _ :: _, 0, _, _, _ => rfl
  | _ :: xs, i + 1, a, d, h => getD_set_self xs i a d (Nat.lt_of_succ_lt_succ h)

theorem getD_set_ne {α : Type} :
    ∀ (l : List α) (i j : Nat) (a d : α), j ≠ i → (l.set i a).getD j d = l.getD j d
  | [], _, _, _, _, _ => rfl
  | _ :: _, 0, 0, _, _, h => absurd rfl h
  | _ :: _, 0, _ + 1, _, _, _ => rfl
  | _ :: _, _ + 1, 0, _, _, _ => rfl
  | _ :: xs, i + 1, j + 1, a, d, h =>
    getD_set_ne xs i j a d (fun e => h (congrArg Nat.succ e))

theorem getD_replicate {α : Type} (a d : α) :
    ∀ (n i : Nat), i < n → (List.replicate n a).getD i d = a
  | 0, i, h => absurd h (Nat.not_lt_zero i)
  | _ + 1, 0, _ => rfl
  | n + 1, i + 1, h => getD_replicate a d n i (Nat.lt_of_succ_lt_succ h)

theorem index_hash_lt (p : Pixel) : index_hash p < 64 :=
  Nat.mod_lt _ (by decide)

/-- Channel-wise equality of pixels is equality. -/
theorem Pixel.eq_of_channels {a b : Pixel} (hr : a.r = b.r) (hg : a.g = b.g)
    (hb : a.b = b.b) : a = b := by
  cases a; cases b; simp_all

/-- The packed QOI_OP_DIFF byte, written with the source's bitwise
operators, as plain arithmetic. -/
theorem diff_byte_eq (k m n : Nat) (hk : k ≤ 3) (hm : m ≤ 3) (hn : n ≤ 3) :
    64 ||| (k <<< 4) ||| (m <<< 2) ||| n = 64 + 16 * k + 4 * m + n := by
  interval_cases k <;> interval_cases m <;> interval_cases n <;> rfl

theorem lastPixel_append (ps : List Pixel) (p : Pixel) : lastPixel (ps ++ [p]) = p := by
  unfold lastPixel
  rw [List.reverse_append]
  rfl

theorem lastColorWithHash_append (h : Nat) (ps : List Pixel) (p : Pixel) :
    lastColorWithHash h (ps ++ [p]) =
      if index_hash p = h then p else lastColorWithHash h ps := by
  unfold lastColorWithHash
  rw [List.reverse_append]
  by_cases hp : index_hash p = h
  · rw [if_pos hp]
    rw [show ([p].reverse ++ ps.reverse) = p :: ps.reverse from rfl]
    rw [List.find?_cons_of_pos _ (by simpa using hp)]
    rfl
  · rw [if_neg hp]
    rw [show ([p].reverse ++ ps.reverse) = p :: ps.reverse from rfl]
    rw [List.find?_cons_of_neg _ (by simpa using hp)]

theorem lastColorWithHash_lastPixel (ps : List Pixel) :
    lastColorWithHash (index_hash (lastPixel ps)) ps = lastPixel ps := by
  unfold lastColorWithHash lastPixel
  cases hrev : ps.reverse with
  | nil => rfl
  | cons q t =>
    rw [List.find?_cons_of_pos _ (by simp)]
    rfl

/-! ## Branch equations for `encodeStep` -/

theorem flushState_index (s : EncState) : (flushState s).index = s.index := by
  unfold flushState; split <;> rfl

theorem flushState_last (s : EncState) : (flushState s).last = s.last := by
  unfold flushState; split <;> rfl

theorem flushState_run (s : EncState) : (flushState s).run_counter = 0 := by
  unfold flushState
  split
  · rfl
  · omega

/-- Run-continuation branch (lines 84-87): the pixel repeats `last` and
the run is below the cap, so nothing is emitted. -/
theorem encodeStep_run (s : EncState) (p : Pixel)
    (h : s.last.r = p.r ∧ s.last.g = p.g ∧ s.last.b = p.b ∧ s.run_counter < 62) :
    encodeStep s p = ([], { s with run_counter := s.run_counter + 1 }) := by
  unfold encodeStep
  rw [if_pos h]

/-- Index-hit branch (lines 100-105): after the run flush the slot holds
a stored tuple equal to the pixel, so the slot position is emitted. -/
theorem encodeStep_hit (s : EncState) (p : Pixel)
    (hrun : ¬(s.last.r = p.r ∧ s.last.g = p.g ∧ s.last.b = p.b ∧ s.run_counter < 62))
    (hhit : pyEqSlot p (s.index.getD (index_hash p) IndexSlot.initList) = true) :
    encodeStep s p = (runFlush s ++ [index_hash p], { flushState s with last := p }) := by
  unfold encodeStep
  rw [if_neg hrun]
  dsimp only
  rw [flushState_index, if_neg (by simp only [hhit]; decide)]

/-- Index-miss, small-delta branch (lines 97-99 and 107-122): the slot
does not compare equal to the pixel, the pixel is stored, and all three
channel deltas pass the range test, so one packed QOI_OP_DIFF byte is
emitted. -/
theorem encodeStep_miss_diff (s : EncState) (p : Pixel)
    (hrun : ¬(s.last.r = p.r ∧ s.last.g = p.g ∧ s.last.b = p.b ∧ s.run_counter < 62))
    (hmiss : pyEqSlot p (s.index.getD (index_hash p) IndexSlot.initList) = false)
    (hd : (p.r : Int) - (s.last.r : Int) < 2 ∧ (p.r : Int) - (s.last.r : Int) > -3 ∧
          (p.g : Int) - (s.last.g : Int) < 2 ∧ (p.g : Int) - (s.last.g : Int) > -3 ∧
          (p.b : Int) - (s.last.b : Int) < 2 ∧ (p.b : Int) - (s.last.b : Int) > -3) :
    encodeStep s p =
      (runFlush s ++
        [64 ||| (((p.r : Int) - (s.last.r : Int) + 2).toNat <<< 4) |||
          (((p.g : Int) - (s.last.g : Int) + 2).toNat <<< 2) |||
          ((p.b : Int) - (s.last.b : Int) + 2).toNat],
       { flushState s with
          index := s.index.set (index_hash p) (IndexSlot.stored p), last := p }) := by
  unfold encodeStep
  rw [if_neg hrun]
  dsimp only
  rw [flushState_index, if_pos hmiss, flushState_last, if_pos hd]

/-- Index-miss, literal branch (lines 97-99 and 124-130): the slot does
not compare equal to the pixel, the pixel is stored, and some channel
delta fails the range test, so the QOI_OP_RGB tag 254 and the three raw
channel bytes are emitted. -/
theorem encodeStep_miss_lit (s : EncState) (p : Pixel)
    (hrun : ¬(s.last.r = p.r ∧ s.last.g = p.g ∧ s.last.b = p.b ∧ s.run_counter < 62))
    (hmiss : pyEqSlot p (s.index.getD (index_hash p) IndexSlot.initList) = false)
    (hd : ¬((p.r : Int) - (s.last.r : Int) < 2 ∧ (p.r : Int) - (s.last.r : Int) > -3 ∧
          (p.g : Int) - (s.last.g : Int) < 2 ∧ (p.g : Int) - (s.last.g : Int) > -3 ∧
          (p.b : Int) - (s.last.b : Int) < 2 ∧ (p.b : Int) - (s.last.b : Int) > -3)) :
    encodeStep s p =
      (runFlush s ++ [254, p.r, p.g, p.b],
       { flushState s with
          index := s.index.set (index_hash p) (IndexSlot.stored p), last := p }) := by
  unfold encodeStep
  rw [if_neg hrun]
  dsimp only
  rw [flushState_index, if_pos hmiss, flushState_last, if_neg hd]

/-- A true index hit forces the slot to hold the stored tuple equal to
the pixel: the initial list value never compares equal. -/
theorem pyEqSlot_true {p : Pixel} {slot : IndexSlot} (h : pyEqSlot p slot = true) :
    slot = IndexSlot.stored p := by
  cases slot with
  | initList => simp [pyEqSlot] at h
  | stored q =>
    simp only [pyEqSlot, decide_eq_true_eq] at h
    subst h
    rfl

/-- Processing a pixel that differs from `last` always leaves `last`
equal to that pixel, the run counter at zero, the table length intact,
the pixel's own slot stored with the pixel, and every other slot
untouched. -/
theorem encodeStep_new_pixel (s : EncState) (p : Pixel)
    (hlen : s.index.length = 64) (hne : p ≠ s.last) :
    ((encodeStep s p).2).last = p ∧ ((encodeStep s p).2).run_counter = 0 ∧
    ((encodeStep s p).2).index.length = 64 ∧
    ((encodeStep s p).2).index.getD (index_hash p) IndexSlot.initList = IndexSlot.stored p ∧
    ∀ j : Nat, j ≠ index_hash p →
      ((encodeStep s p).2).index.getD j IndexSlot.initList =
        s.index.getD j IndexSlot.initList := by
  have hrun : ¬(s.last.r = p.r ∧ s.last.g = p.g ∧ s.last.b = p.b ∧ s.run_counter < 62) := by
    rintro ⟨h1, h2, h3, -⟩
    exact hne (Pixel.eq_of_channels h1.symm h2.symm h3.symm)
  cases hcase : pyEqSlot p (s.index.getD (index_hash p) IndexSlot.initList) with
  | true =>
    have hslot := pyEqSlot_true hcase
    rw [encodeStep_hit s p hrun hcase]
    refine ⟨rfl, flushState_run s, ?_, ?_, ?_⟩
    · show (flushState s).index.length = 64
      rw [flushState_index]; exact hlen
    · show (flushState s).index.getD (index_hash p) IndexSlot.initList = IndexSlot.stored p
      rw [flushState_index]; exact hslot
    · intro j _
      show (flushState s).index.getD j IndexSlot.initList = s.index.getD j IndexSlot.initList
      rw [flushState_index]
  | false =>
    have hpair : ((encodeStep s p).2).index = s.index.set (index_hash p) (IndexSlot.stored p)
        ∧ ((encodeStep s p).2).last = p ∧ ((encodeStep s p).2).run_counter = 0 := by
      by_cases hd : ((p.r : Int) - (s.last.r : Int) < 2 ∧ (p.r : Int) - (s.last.r : Int) > -3 ∧
          (p.g : Int) - (s.last.g : Int) < 2 ∧ (p.g : Int) - (s.last.g : Int) > -3 ∧
          (p.b : Int) - (s.last.b : Int) < 2 ∧ (p.b : Int) - (s.last.b : Int) > -3)
      · rw [encodeStep_miss_diff s p hrun hcase hd]
        exact ⟨rfl, rfl, flushState_run s⟩
      · rw [encodeStep_miss_lit s p hrun hcase hd]
        exact ⟨rfl, rfl, flushState_run s⟩
    obtain ⟨hidx, hl, hr⟩ := hpair
    refine ⟨hl, hr, ?_, ?_, ?_⟩
    · rw [hidx]; simpa using hlen
    · rw [hidx]
      exact getD_set_self _ _ _ _ (by rw [hlen]; exact index_hash_lt p)
    · intro j hj
      rw [hidx]
      exact getD_set_ne _ _ _ _ _ hj

/-! ## Claims -/

/-- C1: the claim says that a run still open after the last pixel is
flushed as one final run opcode byte before the 8-byte trailer.  The
code does not do this: evaluated at width 2, height 1, pixels
`[(1,2,3), (1,2,3)]`, the loop ends with `run_counter = 1`, yet the
output holds no run opcode byte at all (no byte in 192..253) — the
literal for the first pixel is followed directly by the trailer, so the
trailing repeated pixel is silently dropped. -/
theorem c1_run_flush_missing :
    encode 2 1 [Pixel.mk 1 2 3, Pixel.mk 1 2 3] =
      Except.ok [113, 111, 105, 102, 0, 0, 0, 2, 0, 0, 0, 1, 3, 0, 254, 1, 2, 3,
        0, 0, 0, 0, 0, 0, 0, 1] ∧
    (encodeLoop initState [Pixel.mk 1 2 3, Pixel.mk 1 2 3]).2.run_counter = 1 ∧
    ∀ b ∈ encodeBody [Pixel.mk 1 2 3, Pixel.mk 1 2 3], ¬(192 ≤ b ∧ b ≤ 253) :=
  ⟨rfl, rfl, by decide⟩

/-- C2 counterexample: the claim says the channel deltas are wrapped
modulo 256, so a transition from channel value 255 to 0 has wrapped
delta +1 and qualifies for the diff opcode.  In the code the deltas are
plain integer subtraction: encoding `[(255,10,10), (0,10,10)]` emits the
second pixel as a literal (tag 254 followed by the raw channels), and no
diff opcode byte (64..127) occurs anywhere in the stream. -/
theorem c2_counterexample :
    encodeBody [Pixel.mk 255 10 10, Pixel.mk 0 10 10] =
      [254, 255, 10, 10, 254, 0, 10, 10] ∧
    ∀ b ∈ encodeBody [Pixel.mk 255 10 10, Pixel.mk 0 10 10], ¬(64 ≤ b ∧ b < 128) :=
  ⟨rfl, by decide⟩

/-- C2 (amended): the deltas `dr`, `dg`, `db` are computed with plain
(unwrapped) integer subtraction, and whenever any of them falls outside
the inclusive range [-2, 1] the pixel reaching the delta test is encoded
with the literal opcode, not the diff opcode; in particular a 255-to-0
channel transition has delta -255 and is excluded. -/
theorem c2_plain_deltas (s : EncState) (p : Pixel)
    (hrun : ¬(s.last.r = p.r ∧ s.last.g = p.g ∧ s.last.b = p.b ∧ s.run_counter < 62))
    (hrc : s.run_counter = 0)
    (hmiss : pyEqSlot p (s.index.getD (index_hash p) IndexSlot.initList) = false)
    (hout : ¬(-2 ≤ (p.r : Int) - (s.last.r : Int) ∧ (p.r : Int) - (s.last.r : Int) ≤ 1) ∨
            ¬(-2 ≤ (p.g : Int) - (s.last.g : Int) ∧ (p.g : Int) - (s.last.g : Int) ≤ 1) ∨
            ¬(-2 ≤ (p.b : Int) - (s.last.b : Int) ∧ (p.b : Int) - (s.last.b : Int) ≤ 1)) :
    (encodeStep s p).1 = [254, p.r, p.g, p.b] := by
  have hd : ¬((p.r : Int) - (s.last.r : Int) < 2 ∧ (p.r : Int) - (s.last.r : Int) > -3 ∧
      (p.g : Int) - (s.last.g : Int) < 2 ∧ (p.g : Int) - (s.last.g : Int) > -3 ∧
      (p.b : Int) - (s.last.b : Int) < 2 ∧ (p.b : Int) - (s.last.b : Int) > -3) := by
    rcases hout with h | h | h <;> omega
  rw [encodeStep_miss_lit s p hrun hmiss hd]
  simp [runFlush, hrc]

/-- C2 witness: the amended theorem applied at `last = (255,10,10)` and
incoming pixel `(0,10,10)`. -/
theorem c2_witness :
    (encodeStep (EncState.mk (List.replicate 64 IndexSlot.initList) (Pixel.mk 255 10 10) 0)
      (Pixel.mk 0 10 10)).1 = [254, 0, 10, 10] :=
  c2_plain_deltas _ _ (by decide) rfl (by decide) (Or.inl (by decide))

/-- C3 counterexample: the claim says encoding fails with an
`InvalidDimensions` error whenever width or height is zero.  The code
performs no such validation: with width 0 and height 0 it succeeds and
emits a full stream whose dimension fields are zero. -/
theorem c3_counterexample :
    encode 0 0 [] =
      Except.ok [113, 111, 105, 102, 0, 0, 0, 0, 0, 0, 0, 0, 3, 0,
        0, 0, 0, 0, 0, 0, 0, 1] :=
  rfl

/-- C3 (amended): the only dimension failure is the `OverflowError`
raised by the 4-byte conversion when width or height exceeds the
unsigned 32-bit range; it is raised before any output byte is produced
(the result is an error with no partial stream), while zero dimensions
are accepted. -/
theorem c3_overflow_before_output (w h : Nat) (ps : List Pixel)
    (hwh : 2 ^ 32 ≤ w ∨ 2 ^ 32 ≤ h) :
    encode w h ps = Except.error "OverflowError: int too big to convert" := by
  by_cases hw : w < 2 ^ 32
  · have hh : ¬h < 2 ^ 32 := by rcases hwh with h1 | h1 <;> omega
    unfold encode to_bytes4
    rw [if_pos hw]
    dsimp only
    rw [if_neg hh]
  · unfold encode to_bytes4
    rw [if_neg hw]

/-- C3 witness: the amended theorem applied at width `2 ^ 32`. -/
theorem c3_witness :
    encode (2 ^ 32) 1 [] = Except.error "OverflowError: int too big to convert" :=
  c3_overflow_before_output (2 ^ 32) 1 [] (Or.inl (le_refl _))

/-- C4 counterexample: the claim says a pixel `(0,0,0)` that differs from
`last` and whose slot 53 was never stored to is emitted as the index
opcode byte 53.  In the code the never-written slot holds the initial
list `[0,0,0]`, which a pixel tuple never compares equal to, so encoding
`[(1,1,1), (0,0,0)]` emits the black pixel as the diff byte 85, and the
byte 53 appears nowhere in the stream. -/
theorem c4_counterexample :
    encodeBody [Pixel.mk 1 1 1, Pixel.mk 0 0 0] = [127, 85] ∧
    (53 : Nat) ∉ encodeBody [Pixel.mk 1 1 1, Pixel.mk 0 0 0] :=
  ⟨rfl, by decide⟩

/-- C4 (amended): for a pixel `P = (0,0,0)` that differs from `last`,
with slot 53 still holding its initial value, the comparison against the
initial list fails (tuple against list), so the encoder stores `P` into
slot 53 and falls through to the diff or literal opcode — the byte 53 is
not emitted for `P`. -/
theorem c4_initial_slot_never_matches (s : EncState)
    (hlen : s.index.length = 64)
    (hslot : s.index.getD 53 IndexSlot.initList = IndexSlot.initList)
    (hlast : s.last ≠ Pixel.mk 0 0 0) (hrc : s.run_counter = 0) :
    ((encodeStep s (Pixel.mk 0 0 0)).2).index.getD 53 IndexSlot.initList =
      IndexSlot.stored (Pixel.mk 0 0 0) ∧
    ∀ b ∈ (encodeStep s (Pixel.mk 0 0 0)).1, b ≠ 53 := by
  have h53 : index_hash (Pixel.mk 0 0 0) = 53 := by decide
  have hne : Pixel.mk 0 0 0 ≠ s.last := fun e => hlast e.symm
  obtain ⟨-, -, -, hstore, -⟩ := encodeStep_new_pixel s (Pixel.mk 0 0 0) hlen hne
  have hrun : ¬(s.last.r = (Pixel.mk 0 0 0).r ∧ s.last.g = (Pixel.mk 0 0 0).g ∧
      s.last.b = (Pixel.mk 0 0 0).b ∧ s.run_counter < 62) := by
    rintro ⟨h1, h2, h3, -⟩
    exact hlast (Pixel.eq_of_channels h1 h2 h3)
  have hmiss : pyEqSlot (Pixel.mk 0 0 0)
      (s.index.getD (index_hash (Pixel.mk 0 0 0)) IndexSlot.initList) = false := by
    rw [h53, hslot]
    rfl
  refine ⟨by rw [← h53]; exact hstore, ?_⟩
  by_cases hd : (((Pixel.mk 0 0 0).r : Int) - (s.last.r : Int) < 2 ∧
      ((Pixel.mk 0 0 0).r : Int) - (s.last.r : Int) > -3 ∧
      ((Pixel.mk 0 0 0).g : Int) - (s.last.g : Int) < 2 ∧
      ((Pixel.mk 0 0 0).g : Int) - (s.last.g : Int) > -3 ∧
      ((Pixel.mk 0 0 0).b : Int) - (s.last.b : Int) < 2 ∧
      ((Pixel.mk 0 0 0).b : Int) - (s.last.b : Int) > -3)
  · rw [encodeStep_miss_diff s (Pixel.mk 0 0 0) hrun hmiss hd]
    intro b hb
    simp only [runFlush, hrc, gt_iff_lt, Nat.lt_irrefl, if_false, List.nil_append,
      List.mem_singleton] at hb
    subst hb
    rw [diff_byte_eq _ _ _ (by omega) (by omega) (by omega)]
    omega
  · rw [encodeStep_miss_lit s (Pixel.mk 0 0 0) hrun hmiss hd]
    intro b hb
    simp only [runFlush, hrc, gt_iff_lt, Nat.lt_irrefl, if_false, List.nil_append] at hb
    fin_cases hb <;> decide

/-- C4 witness: the amended theorem applied at the initial table with
`last = (1,1,1)`. -/
theorem c4_witness :
    ((encodeStep (EncState.mk (List.replicate 64 IndexSlot.initList) (Pixel.mk 1 1 1) 0)
        (Pixel.mk 0 0 0)).2).index.getD 53 IndexSlot.initList =
      IndexSlot.stored (Pixel.mk 0 0 0) ∧
    ∀ b ∈ (encodeStep (EncState.mk (List.replicate 64 IndexSlot.initList) (Pixel.mk 1 1 1) 0)
        (Pixel.mk 0 0 0)).1, b ≠ 53 :=
  c4_initial_slot_never_matches _ (by decide) (by decide) (by decide) rfl

/-- The invariant holds at the top of the loop. -/
theorem tableInv_init : tableInv initState [] := by
  refine ⟨by decide, rfl, ?_⟩
  intro h hh
  show slotColor ((List.replicate 64 IndexSlot.initList).getD h IndexSlot.initList) = _
  rw [getD_replicate _ _ 64 h hh]
  rfl

/-- One loop iteration preserves the color-index invariant. -/
theorem tableInv_step (s : EncState) (p : Pixel) (ps : List Pixel)
    (hinv : tableInv s ps) : tableInv (encodeStep s p).2 (ps ++ [p]) := by
  obtain ⟨hlen, hlast, hslots⟩ := hinv
  by_cases hrun : (s.last.r = p.r ∧ s.last.g = p.g ∧ s.last.b = p.b ∧ s.run_counter < 62)
  · have hp : s.last = p := Pixel.eq_of_channels hrun.1 hrun.2.1 hrun.2.2.1
    rw [encodeStep_run s p hrun]
    refine ⟨hlen, ?_, ?_⟩
    · show s.last = lastPixel (ps ++ [p])
      rw [lastPixel_append, hp]
    · intro h hh
      show slotColor (s.index.getD h IndexSlot.initList) = lastColorWithHash h (ps ++ [p])
      rw [lastColorWithHash_append]
      by_cases hph : index_hash p = h
      · rw [if_pos hph, hslots h hh, ← hph, ← hp, hlast]
        exact lastColorWithHash_lastPixel ps
      · rw [if_neg hph]
        exact hslots h hh
  · cases hcase : pyEqSlot p (s.index.getD (index_hash p) IndexSlot.initList) with
    | true =>
      have hslot := pyEqSlot_true hcase
      rw [encodeStep_hit s p hrun hcase]
      refine ⟨?_, ?_, ?_⟩
      · show (flushState s).index.length = 64
        rw [flushState_index]; exact hlen
      · show p = lastPixel (ps ++ [p])
        rw [lastPixel_append]
      · intro h hh
        show slotColor ((flushState s).index.getD h IndexSlot.initList) =
          lastColorWithHash h (ps ++ [p])
        rw [flushState_index, lastColorWithHash_append]
        by_cases hph : index_hash p = h
        · rw [if_pos hph, ← hph, hslot]
          rfl
        · rw [if_neg hph]
          exact hslots h hh
    | false =>
      have hpair : ((encodeStep s p).2).index = s.index.set (index_hash p) (IndexSlot.stored p)
          ∧ ((encodeStep s p).2).last = p := by
        by_cases hd : ((p.r : Int) - (s.last.r : Int) < 2 ∧ (p.r : Int) - (s.last.r : Int) > -3 ∧
            (p.g : Int) - (s.last.g : Int) < 2 ∧ (p.g : Int) - (s.last.g : Int) > -3 ∧
            (p.b : Int) - (s.last.b : Int) < 2 ∧ (p.b : Int) - (s.last.b : Int) > -3)
        · rw [encodeStep_miss_diff s p hrun hcase hd]; exact ⟨rfl, rfl⟩
        · rw [encodeStep_miss_lit s p hrun hcase hd]; exact ⟨rfl, rfl⟩
      obtain ⟨hidx, hl⟩ := hpair
      refine ⟨?_, ?_, ?_⟩
      · rw [hidx]; simpa using hlen
      · rw [hl, lastPixel_append]
      · intro h hh
        rw [hidx, lastColorWithHash_append]
        by_cases hph : index_hash p = h
        · rw [if_pos hph, ← hph,
            getD_set_self _ _ _ _ (by rw [hlen]; exact index_hash_lt p)]
          rfl
        · rw [if_neg hph, getD_set_ne _ _ _ _ _ (fun e => hph e.symm)]
          exact hslots h hh

/-- The whole loop preserves the color-index invariant. -/
theorem tableInv_loop :
    ∀ (ps : List Pixel) (s : EncState) (hist : List Pixel),
      tableInv s hist → tableInv (encodeLoop s ps).2 (hist ++ ps)
  | [], s, hist, h => by simpa [encodeLoop] using h
  | p :: ps, s, hist, h => by
    have h2 := tableInv_loop ps (encodeStep s p).2 (hist ++ [p]) (tableInv_step s p hist h)
    simpa [encodeLoop, List.append_assoc] using h2

/-- C5: after processing any pixel list, every table slot holds (as a
color) the most recently consumed pixel hashing to it, or the initial
zero value if none; moreover any pixel that reaches the diff or literal
branches (run test failed, index comparison failed) has already been
stored into its hash slot by the index-miss store. -/
theorem c5_table_invariant (ps : List Pixel) (h : Nat) (hh : h < 64) :
    slotColor (((encodeLoop initState ps).2).index.getD h IndexSlot.initList) =
      lastColorWithHash h ps ∧
    (∀ (s : EncState) (p : Pixel),
      ¬(s.last.r = p.r ∧ s.last.g = p.g ∧ s.last.b = p.b ∧ s.run_counter < 62) →
      pyEqSlot p (s.index.getD (index_hash p) IndexSlot.initList) = false →
      index_hash p < s.index.length →
      ((encodeStep s p).2).index.getD (index_hash p) IndexSlot.initList =
        IndexSlot.stored p) := by
  constructor
  · have := (tableInv_loop ps initState [] tableInv_init).2.2 h hh
    simpa using this
  · intro s p hrun hmiss hlt
    by_cases hd : ((p.r : Int) - (s.last.r : Int) < 2 ∧ (p.r : Int) - (s.last.r : Int) > -3 ∧
        (p.g : Int) - (s.last.g : Int) < 2 ∧ (p.g : Int) - (s.last.g : Int) > -3 ∧
        (p.b : Int) - (s.last.b : Int) < 2 ∧ (p.b : Int) - (s.last.b : Int) > -3)
    · rw [encodeStep_miss_diff s p hrun hmiss hd]
      exact getD_set_self _ _ _ _ hlt
    · rw [encodeStep_miss_lit s p hrun hmiss hd]
      exact getD_set_self _ _ _ _ hlt

/-- C5 witness: the invariant theorem applied at the one-pixel list
`[(5,5,5)]` and slot 0 (the hash of `(5,5,5)`). -/
theorem c5_witness :
    slotColor (((encodeLoop initState [Pixel.mk 5 5 5]).2).index.getD 0 IndexSlot.initList) =
      lastColorWithHash 0 [Pixel.mk 5 5 5] ∧
    (∀ (s : EncState) (p : Pixel),
      ¬(s.last.r = p.r ∧ s.last.g = p.g ∧ s.last.b = p.b ∧ s.run_counter < 62) →
      pyEqSlot p (s.index.getD (index_hash p) IndexSlot.initList) = false →
      index_hash p < s.index.length →
      ((encodeStep s p).2).index.getD (index_hash p) IndexSlot.initList =
        IndexSlot.stored p) :=
  c5_table_invariant [Pixel.mk 5 5 5] 0 (by decide)

/-- C6 counterexample: the claim says 200 identical pixels encode as run
opcodes only, with no index opcode between them.  Encoding 200 copies of
`(1,2,3)` yields a literal, then run byte 253, then the index opcode 23
(a byte below 64), then run byte 253 again — index opcodes are
interleaved between the runs (and the trailing run of 10 is dropped). -/
theorem c6_counterexample :
    encodeBody (List.replicate 200 (Pixel.mk 1 2 3)) =
      [254, 1, 2, 3, 253, 23, 253, 23, 253, 23] ∧
    (encodeBody (List.replicate 200 (Pixel.mk 1 2 3))).getD 4 0 = 253 ∧
    (encodeBody (List.replicate 200 (Pixel.mk 1 2 3))).getD 5 0 = 23 ∧
    (encodeBody (List.replicate 200 (Pixel.mk 1 2 3))).getD 6 0 = 253 ∧
    (23 : Nat) < 64 :=
  ⟨by decide, by decide, by decide, by decide, by decide⟩

/-- C6 (amended): the run counter never exceeds 62 after any step, and a
sequence of 200 identical pixels encodes as runs of at most 62 pixels
each — but with a single-byte index opcode emitted for each pixel that
breaks a capped run, and with the residual run of the last 10 pixels
left unflushed (`run_counter = 10` at the end of the loop, no byte
emitted for it). -/
theorem c6_run_cap :
    (∀ (s : EncState) (p : Pixel), ((encodeStep s p).2).run_counter ≤ 62) ∧
    encodeBody (List.replicate 200 (Pixel.mk 1 2 3)) =
      [254, 1, 2, 3, 253, 23, 253, 23, 253, 23] ∧
    (encodeLoop initState (List.replicate 200 (Pixel.mk 1 2 3))).2.run_counter = 10 := by
  refine ⟨?_, by decide, by decide⟩
  intro s p
  by_cases hrun : (s.last.r = p.r ∧ s.last.g = p.g ∧ s.last.b = p.b ∧ s.run_counter < 62)
  · rw [encodeStep_run s p hrun]
    show s.run_counter + 1 ≤ 62
    have := hrun.2.2.2
    omega
  · cases hcase : pyEqSlot p (s.index.getD (index_hash p) IndexSlot.initList) with
    | true =>
      rw [encodeStep_hit s p hrun hcase]
      show (flushState s).run_counter ≤ 62
      rw [flushState_run]
      omega
    | false =>
      by_cases hd : ((p.r : Int) - (s.last.r : Int) < 2 ∧ (p.r : Int) - (s.last.r : Int) > -3 ∧
          (p.g : Int) - (s.last.g : Int) < 2 ∧ (p.g : Int) - (s.last.g : Int) > -3 ∧
          (p.b : Int) - (s.last.b : Int) < 2 ∧ (p.b : Int) - (s.last.b : Int) > -3)
      · rw [encodeStep_miss_diff s p hrun hcase hd]
        show (flushState s).run_counter ≤ 62
        rw [flushState_run]
        omega
      · rw [encodeStep_miss_lit s p hrun hcase hd]
        show (flushState s).run_counter ≤ 62
        rw [flushState_run]
        omega

/-- C7: a pixel that reaches the delta test (run test failed, no open
run, index comparison failed) with all three plain deltas in [-2, 1] is
emitted as exactly one byte whose value is
`64 + 16*(dr+2) + 4*(dg+2) + (db+2)` — the tag `01` in the two high bits
with the three biased deltas packed in 2-bit fields; in particular the
transition `(10,10,10)` to `(11,8,11)` emits the single diff byte 115,
while `(10,10,10)` to `(12,8,11)` falls through to the literal
`254, 12, 8, 11` because `dr = +2` is out of range. -/
theorem c7_small_delta (s : EncState) (p : Pixel)
    (hrun : ¬(s.last.r = p.r ∧ s.last.g = p.g ∧ s.last.b = p.b ∧ s.run_counter < 62))
    (hrc : s.run_counter = 0)
    (hmiss : pyEqSlot p (s.index.getD (index_hash p) IndexSlot.initList) = false)
    (hr : -2 ≤ (p.r : Int) - (s.last.r : Int) ∧ (p.r : Int) - (s.last.r : Int) ≤ 1)
    (hg : -2 ≤ (p.g : Int) - (s.last.g : Int) ∧ (p.g : Int) - (s.last.g : Int) ≤ 1)
    (hb : -2 ≤ (p.b : Int) - (s.last.b : Int) ∧ (p.b : Int) - (s.last.b : Int) ≤ 1) :
    (encodeStep s p).1 =
      [64 + 16 * ((p.r : Int) - (s.last.r : Int) + 2).toNat
          + 4 * ((p.g : Int) - (s.last.g : Int) + 2).toNat
          + ((p.b : Int) - (s.last.b : Int) + 2).toNat] ∧
    (encodeStep (EncState.mk (List.replicate 64 IndexSlot.initList) (Pixel.mk 10 10 10) 0)
      (Pixel.mk 11 8 11)).1 = [115] ∧
    (encodeStep (EncState.mk (List.replicate 64 IndexSlot.initList) (Pixel.mk 10 10 10) 0)
      (Pixel.mk 12 8 11)).1 = [254, 12, 8, 11] := by
  refine ⟨?_, by decide, by decide⟩
  have hd : ((p.r : Int) - (s.last.r : Int) < 2 ∧ (p.r : Int) - (s.last.r : Int) > -3 ∧
      (p.g : Int) - (s.last.g : Int) < 2 ∧ (p.g : Int) - (s.last.g : Int) > -3 ∧
      (p.b : Int) - (s.last.b : Int) < 2 ∧ (p.b : Int) - (s.last.b : Int) > -3) := by
    refine ⟨by omega, by omega, by omega, by omega, by omega, by omega⟩
  rw [encodeStep_miss_diff s p hrun hmiss hd]
  simp only [runFlush, hrc, gt_iff_lt, Nat.lt_irrefl, if_false, List.nil_append]
  rw [diff_byte_eq _ _ _ (by omega) (by omega) (by omega)]

/-- C7 witness: the theorem applied at `last = (10,10,10)` and incoming
pixel `(11,8,11)`. -/
theorem c7_witness :
    (encodeStep (EncState.mk (List.replicate 64 IndexSlot.initList) (Pixel.mk 10 10 10) 0)
      (Pixel.mk 11 8 11)).1 =
      [64 + 16 * (((Pixel.mk 11 8 11).r : Int) - ((Pixel.mk 10 10 10).r : Int) + 2).toNat
          + 4 * (((Pixel.mk 11 8 11).g : Int) - ((Pixel.mk 10 10 10).g : Int) + 2).toNat
          + (((Pixel.mk 11 8 11).b : Int) - ((Pixel.mk 10 10 10).b : Int) + 2).toNat] ∧
    (encodeStep (EncState.mk (List.replicate 64 IndexSlot.initList) (Pixel.mk 10 10 10) 0)
      (Pixel.mk 11 8 11)).1 = [115] ∧
    (encodeStep (EncState.mk (List.replicate 64 IndexSlot.initList) (Pixel.mk 10 10 10) 0)
      (Pixel.mk 12 8 11)).1 = [254, 12, 8, 11] :=
  c7_small_delta _ _ (by decide) rfl (by decide) (by decide) (by decide) (by decide)

/-- C8: for in-range dimensions the output starts with exactly the
14 header bytes — the magic `qoif`, the width and the height as 4-byte
big-endian integers, the channel byte 3 and the colorspace byte 0 — and
for a 3-by-2 image (here six identical black pixels, whose run is
dropped by the missing final flush, leaving an empty body) the stream is
the 14 header bytes followed directly by the trailer. -/
theorem c8_header (w h : Nat) (ps : List Pixel) (hw : w < 2 ^ 32) (hh : h < 2 ^ 32) :
    encode w h ps =
      Except.ok ([113, 111, 105, 102,
        w / 2 ^ 24 % 256, w / 2 ^ 16 % 256, w / 2 ^ 8 % 256, w % 256,
        h / 2 ^ 24 % 256, h / 2 ^ 16 % 256, h / 2 ^ 8 % 256, h % 256,
        3, 0] ++ (encodeBody ps ++ trailerBytes)) ∧
    encode 3 2 (List.replicate 6 (Pixel.mk 0 0 0)) =
      Except.ok ([113, 111, 105, 102, 0, 0, 0, 3, 0, 0, 0, 2, 3, 0] ++
        [0, 0, 0, 0, 0, 0, 0, 1]) := by
  constructor
  · unfold encode to_bytes4
    rw [if_pos hw]
    dsimp only
    rw [if_pos hh]
    rfl
  · rfl

/-- C8 witness: the header theorem applied at width 3, height 2. -/
theorem c8_witness :
    encode 3 2 [] =
      Except.ok ([113, 111, 105, 102,
        3 / 2 ^ 24 % 256, 3 / 2 ^ 16 % 256, 3 / 2 ^ 8 % 256, 3 % 256,
        2 / 2 ^ 24 % 256, 2 / 2 ^ 16 % 256, 2 / 2 ^ 8 % 256, 2 % 256,
        3, 0] ++ (encodeBody [] ++ trailerBytes)) ∧
    encode 3 2 (List.replicate 6 (Pixel.mk 0 0 0)) =
      Except.ok ([113, 111, 105, 102, 0, 0, 0, 3, 0, 0, 0, 2, 3, 0] ++
        [0, 0, 0, 0, 0, 0, 0, 1]) :=
  c8_header 3 2 [] (by decide) (by decide)

/-- C9 counterexample: the claim says that in any `A, B, A` succession
with `hash(A) ≠ hash(B)` the second `A` is emitted as the index byte
`hash(A)`.  With `A = (0,0,0)` at the start of the stream the first `A`
is absorbed into a run and slot 53 is never stored, so the second `A`
misses the index (tuple against the initial list) and is emitted as the
diff byte 85: the stream `[(0,0,0), (1,1,1), (0,0,0)]` encodes to
`[192, 127, 85]` and contains no index byte 53. -/
theorem c9_counterexample :
    encodeBody [Pixel.mk 0 0 0, Pixel.mk 1 1 1, Pixel.mk 0 0 0] = [192, 127, 85] ∧
    (53 : Nat) ∉ encodeBody [Pixel.mk 0 0 0, Pixel.mk 1 1 1, Pixel.mk 0 0 0] ∧
    index_hash (Pixel.mk 0 0 0) = 53 ∧ index_hash (Pixel.mk 1 1 1) = 4 :=
  ⟨rfl, by decide, rfl, rfl⟩

/-- C9 (amended): in any `A, B, A` succession in which the first `A`
additionally differs from the pixel before it (so it is not absorbed
into a run over a never-stored slot), with `A ≠ B` and
`hash(A) ≠ hash(B)`, the second `A` is emitted as the single index
opcode byte `hash(A)`. -/
theorem c9_index_reuse (s : EncState) (A B : Pixel) (hlen : s.index.length = 64)
    (h0 : A ≠ s.last) (hAB : A ≠ B) (hhash : index_hash A ≠ index_hash B) :
    (encodeStep (encodeStep (encodeStep s A).2 B).2 A).1 = [index_hash A] := by
  obtain ⟨l1, r1, len1, slot1, -⟩ := encodeStep_new_pixel s A hlen h0
  have hB : B ≠ (encodeStep s A).2.last := by
    rw [l1]; exact fun e => hAB e.symm
  obtain ⟨l2, r2, len2, -, pres2⟩ := encodeStep_new_pixel (encodeStep s A).2 B len1 hB
  have slot2 : ((encodeStep (encodeStep s A).2 B).2).index.getD (index_hash A)
      IndexSlot.initList = IndexSlot.stored A := by
    rw [pres2 (index_hash A) hhash, slot1]
  have hrun3 : ¬(((encodeStep (encodeStep s A).2 B).2).last.r = A.r ∧
      ((encodeStep (encodeStep s A).2 B).2).last.g = A.g ∧
      ((encodeStep (encodeStep s A).2 B).2).last.b = A.b ∧
      ((encodeStep (encodeStep s A).2 B).2).run_counter < 62) := by
    rintro ⟨h1, h2, h3, -⟩
    rw [l2] at h1 h2 h3
    exact hAB (Pixel.eq_of_channels h1.symm h2.symm h3.symm)
  have hhit3 : pyEqSlot A (((encodeStep (encodeStep s A).2 B).2).index.getD (index_hash A)
      IndexSlot.initList) = true := by
    rw [slot2]
    simp [pyEqSlot]
  rw [encodeStep_hit _ A hrun3 hhit3]
  simp [runFlush, r2]

/-- C9 witness: the amended theorem applied to `A = (1,1,1)`,
`B = (2,2,2)` from the initial state. -/
theorem c9_witness :
    (encodeStep (encodeStep (encodeStep initState (Pixel.mk 1 1 1)).2 (Pixel.mk 2 2 2)).2
      (Pixel.mk 1 1 1)).1 = [index_hash (Pixel.mk 1 1 1)] :=
  c9_index_reuse initState (Pixel.mk 1 1 1) (Pixel.mk 2 2 2) (by decide) (by decide)
    (by decide) (by decide)

/-- C10: encoding is deterministic — the output depends only on the
width, the height and the pixel sequence.  The loop state (color index,
`last`, `run_counter`) is created afresh inside each call, so the
embedding of one call is a pure function of its inputs: two calls on
equal inputs yield equal byte streams. -/
theorem c10_deterministic (w1 h1 w2 h2 : Nat) (ps1 ps2 : List Pixel)
    (hw : w1 = w2) (hh : h1 = h2) (hp : ps1 = ps2) :
    encode w1 h1 ps1 = encode w2 h2 ps2 := by
  subst hw
  subst hh
  subst hp
  rfl

/-- C10 witness: the determinism theorem applied at a concrete input. -/
theorem c10_witness :
    encode 1 1 [Pixel.mk 9 9 9] = encode 1 1 [Pixel.mk 9 9 9] :=
  c10_deterministic 1 1 1 1 [Pixel.mk 9 9 9] [Pixel.mk 9 9 9] rfl rfl rfl
